import Mathlib

/-!
Verification development for the heightfield water simulation in
`src/sketch.js` (tangiblear).

The simulation state is a pair of scalar buffers (`current`, `previous`)
indexed by column (longitude, periodic) and row (colatitude, bounded).
Scalars are embedded as exact rationals, JavaScript numbers being modelled
by exact arithmetic.  Angles are represented in normalised form: a column
angle `x` stands for `theta / TWO_PI` and a row angle `y` stands for
`phi / PI`, so that the source expression `theta / TWO_PI * cols` becomes
`x * cols`.
-/

namespace Tangible

/-- The double-buffered heightfield grid: `heightfieldCurrent` and
`heightfieldPrevious` from `sketch.js`, as total functions on indices. -/
structure Grid where
  current : ℤ → ℤ → ℚ
  previous : ℤ → ℤ → ℚ

/-- Grid dimension global `heightfieldCols` (line 18). -/
def heightfieldCols : ℕ := 256

/-- Grid dimension global `heightfieldRows` (line 19). -/
def heightfieldRows : ℕ := 128

/-- Damping global `damping = 0.985` (line 22). -/
def damping : ℚ := 985 / 1000

/-- Impulse strength constant `impulseStrength = 400` (line 504). -/
def impulseStrength : ℚ := 400

/-- The grid produced by `setup()` (lines 38-45) for the global dimensions
`cols × rows`: the initialization loops fill every cell of both buffers
with `0`, unconditionally and for any dimensions — `setup()` contains no
validation of the configuration. -/
def setupHeightfield (_cols _rows : ℕ) : Grid :=
  { current := fun _ _ => 0, previous := fun _ _ => 0 }

/-- JavaScript `%` on integers: truncated remainder, carrying the sign of
the dividend (it agrees with `Int.emod` on non-negative dividends). -/
def jsRem (a b : ℤ) : ℤ :=
  if a < 0 then -((-a) % b) else a % b

/-- The buffer computed by one `updateHeightfield()` call (lines 339-369):
for interior cells (`0 ≤ i < cols`, `1 ≤ j ≤ rows - 2`) the eight
`previous`-buffer neighbours are averaged, the `current` value subtracted,
and the result damped; every other cell keeps its initial value `0`. -/
def newHeightfield (cols rows : ℕ) (damp : ℚ) (g : Grid) : ℤ → ℤ → ℚ :=
  fun i j =>
    if 0 ≤ i ∧ i < (cols : ℤ) ∧ 1 ≤ j ∧ j < (rows : ℤ) - 1 then
      let iPrev := jsRem (i - 1 + (cols : ℤ)) (cols : ℤ)
      let iNext := jsRem (i + 1) (cols : ℤ)
      ((g.previous iPrev j + g.previous iNext j +
        g.previous i (j - 1) + g.previous i (j + 1) +
        g.previous iPrev (j - 1) + g.previous iPrev (j + 1) +
        g.previous iNext (j - 1) + g.previous iNext (j + 1)) / 8 -
        g.current i j) * damp
    else 0

/-- One simulation step `updateHeightfield()` (lines 336-374): the fresh
buffer becomes `current` and the old `current` becomes `previous`
(a buffer-role rotation, lines 371-373). -/
def updateHeightfield (cols rows : ℕ) (damp : ℚ) (g : Grid) : Grid :=
  { current := newHeightfield cols rows damp g, previous := g.current }

/-- The single-conditional column wrap used throughout `sketch.js`
(lines 498-499, 512-513, 523-524): add `cols` once if negative, subtract
`cols` once if at least `cols`. -/
def wrapColOnce (cols : ℕ) (t : ℤ) : ℤ :=
  let t1 := if t < 0 then t + (cols : ℤ) else t
  if (cols : ℤ) ≤ t1 then t1 - (cols : ℤ) else t1

/-- The row clamp `constrain(j, 1, heightfieldRows - 2)` (lines 500, 514,
525, 533, 547); p5's `constrain(n, low, high)` is `max(min(n, high), low)`. -/
def clampRow (rows : ℕ) (j : ℤ) : ℤ :=
  max (min j ((rows : ℤ) - 2)) 1

/-- Column index of an impulse: `floor(theta / TWO_PI * cols)` then the
single-conditional wrap (lines 494, 498-499), with `x = theta / TWO_PI`. -/
def angleColIndex (cols : ℕ) (x : ℚ) : ℤ :=
  wrapColOnce cols ⌊x * (cols : ℚ)⌋

/-- Row index of an impulse: `floor(phi / PI * rows)` clamped into
`[1, rows - 2]` (lines 495, 500), with `y = phi / PI`. -/
def angleRowIndexImpulse (rows : ℕ) (y : ℚ) : ℤ :=
  clampRow rows ⌊y * (rows : ℚ)⌋

/-- A single assignment `heightfieldPrevious[i][j] = v`. -/
def setPrev (g : Grid) (i j : ℤ) (v : ℚ) : Grid :=
  { g with previous := fun a b => if a = i ∧ b = j then v else g.previous a b }

/-- A sequence of assignments into the `previous` buffer, applied in
program order (later assignments override earlier ones). -/
def applyWrites (g : Grid) (ws : List ((ℤ × ℤ) × ℚ)) : Grid :=
  ws.foldl (fun acc w => setPrev acc w.1.1 w.1.2 w.2) g

/-- The value of the last write in a sequence that targets a given cell,
if any: the read-back semantics of `applyWrites`. -/
def lastVal : List ((ℤ × ℤ) × ℚ) → (ℤ × ℤ) → Option ℚ
  | [], _ => none
  | w :: rest, q =>
    match lastVal rest q with
    | some v => some v
    | none => if w.1 = q then some w.2 else none

/-- The neighbour offsets visited by the `di`/`dj` loops (lines 530-537,
544-551), in program order, with the `(0, 0)` center skipped. -/
def neighborOffsets : List (ℤ × ℤ) :=
  [(-1, -1), (-1, 0), (-1, 1), (0, -1), (0, 1), (1, -1), (1, 0), (1, 1)]

/-- Target cell of a neighbour write: column `(c + di + cols) % cols`,
row `constrain(p + dj, 1, rows - 2)` (lines 532-533, 546-547). -/
def nbrTarget (cols rows : ℕ) (c : ℤ × ℤ) (d : ℤ × ℤ) : ℤ × ℤ :=
  (jsRem (c.1 + d.1 + (cols : ℤ)) (cols : ℤ), clampRow rows (c.2 + d.2))

/-- The write sequence of one stamp: the center cell receives `center`,
then each of the eight neighbour targets receives `fall`. -/
def stampWrites (cols rows : ℕ) (center fall : ℚ) (c : ℤ × ℤ) :
    List ((ℤ × ℤ) × ℚ) :=
  (c, center) :: neighborOffsets.map (fun d => (nbrTarget cols rows c d, fall))

/-- The single-point impulse branch of `addHeightfieldImpulse`
(lines 539-552): write `strength` at the (already wrapped and clamped)
center `(ti, pj)`, then `strength * 0.7` at its eight neighbours. -/
def injectPoint (cols rows : ℕ) (strength : ℚ) (ti pj : ℤ) (g : Grid) : Grid :=
  applyWrites g (stampWrites cols rows strength (strength * (7 / 10)) (ti, pj))

/-- Step count of a path impulse:
`max(abs(thetaIndex - lastThetaIndex), abs(phiIndex - lastPhiIndex))`
(line 517). -/
def pathSteps (c0 p0 c1 p1 : ℤ) : ℕ :=
  max (c1 - c0).natAbs (p1 - p0).natAbs

/-- p5's `lerp(start, stop, amt) = start + (stop - start) * amt`, in exact
rational arithmetic.  The source evaluates this in IEEE-754 doubles, whose
rounding can change the floor of the result on in-range inputs (for
example `fl(15/22) * 22` rounds to just below `15`), so statements about
exact floor outcomes of interpolated values do not transfer to the
program. -/
def lerpQ (a b t : ℚ) : ℚ := a + (b - a) * t

/-- The interpolated cell of path step `s` (lines 519-525): linear
interpolation in index space, floored, then wrapped and clamped.  The
division and interpolation are exact here, unlike the source's
double-precision arithmetic (see `lerpQ`). -/
def pathCell (cols rows : ℕ) (c0 p0 c1 p1 : ℤ) (s : ℕ) : ℤ × ℤ :=
  let t : ℚ := (s : ℚ) / ((max (pathSteps c0 p0 c1 p1) 1 : ℕ) : ℚ)
  (wrapColOnce cols ⌊lerpQ (c0 : ℚ) (c1 : ℚ) t⌋,
   clampRow rows ⌊lerpQ (p0 : ℚ) (p1 : ℚ) t⌋)

/-- The cells visited by the path loop `for s in 0..steps` (line 518). -/
def pathCells (cols rows : ℕ) (c0 p0 c1 p1 : ℤ) : List (ℤ × ℤ) :=
  (List.range (pathSteps c0 p0 c1 p1 + 1)).map (pathCell cols rows c0 p0 c1 p1)

/-- The path-impulse branch of `addHeightfieldImpulse` (lines 507-538):
for each interpolated cell, write `strength` at the cell and
`strength * 0.6` at its eight neighbours, in program order. -/
def injectPath (cols rows : ℕ) (strength : ℚ) (c0 p0 c1 p1 : ℤ) (g : Grid) :
    Grid :=
  applyWrites g ((pathCells cols rows c0 p0 c1 p1).flatMap
    (stampWrites cols rows strength (strength * (6 / 10))))

/-- The ambient interaction state: the grid buffers plus the last drawn
angle pair `lastDrawTheta` / `lastDrawPhi` (lines 11-12), in normalised
angle form. -/
structure SimState where
  grid : Grid
  lastDrawTheta : ℚ
  lastDrawPhi : ℚ

/-- `addHeightfieldImpulse(theta, phi, isFirstTouch)` (lines 492-557):
map the angles to indices; a first touch stamps a point impulse at the
target cell, a drag stamps along the interpolated path from the last
recorded angles; finally the last-drawn angles are updated. -/
def addHeightfieldImpulse (cols rows : ℕ) (x y : ℚ) (isFirstTouch : Bool)
    (st : SimState) : SimState :=
  let thetaIndex := angleColIndex cols x
  let phiIndex := angleRowIndexImpulse rows y
  let g :=
    if isFirstTouch then
      injectPoint cols rows impulseStrength thetaIndex phiIndex st.grid
    else
      injectPath cols rows impulseStrength
        (angleColIndex cols st.lastDrawTheta)
        (angleRowIndexImpulse rows st.lastDrawPhi)
        thetaIndex phiIndex st.grid
  { grid := g, lastDrawTheta := x, lastDrawPhi := y }

/-- The two grid-mutating events: a frame tick (one `updateHeightfield()`
call) and an impulse injection. -/
inductive SimOp where
  | tick : SimOp
  | impulse (x y : ℚ) (isFirstTouch : Bool) : SimOp

/-- Apply one event to the interaction state. -/
def applySimOp (cols rows : ℕ) (damp : ℚ) (st : SimState) : SimOp → SimState
  | SimOp.tick => { st with grid := updateHeightfield cols rows damp st.grid }
  | SimOp.impulse x y ft => addHeightfieldImpulse cols rows x y ft st

/-- Run an ordered event sequence. -/
def runSim (cols rows : ℕ) (damp : ℚ) (ops : List SimOp) (st : SimState) :
    SimState :=
  ops.foldl (applySimOp cols rows damp) st

/-- The program's initial state: zero grid, zero last-drawn angles
(lines 11-12, 38-45). -/
def initialState : SimState :=
  { grid := setupHeightfield heightfieldCols heightfieldRows,
    lastDrawTheta := 0, lastDrawPhi := 0 }

/-- Squared energy of one buffer over the allocated `cols × rows` cells. -/
def bufferEnergy (cols rows : ℕ) (f : ℤ → ℤ → ℚ) : ℚ :=
  ∑ i in Finset.range cols, ∑ j in Finset.range rows, (f (i : ℤ) (j : ℤ)) ^ 2

/-- Total squared energy of the grid state (both buffers). -/
def gridEnergy (cols rows : ℕ) (g : Grid) : ℚ :=
  bufferEnergy cols rows g.current + bufferEnergy cols rows g.previous

/-- The boundary rows `0` and `rows - 1` of both buffers are zero. -/
def boundaryZero (rows : ℕ) (g : Grid) : Prop :=
  ∀ i : ℤ, g.current i 0 = 0 ∧ g.current i ((rows : ℤ) - 1) = 0 ∧
    g.previous i 0 = 0 ∧ g.previous i ((rows : ℤ) - 1) = 0

/-- Follows the spec's words (§7): a configuration is valid when the
dimensions are positive, there are at least three rows, and the damping
factor lies in the open interval `(0, 1)`. -/
def validConfigSpec (cols rows : ℕ) (damp : ℚ) : Prop :=
  0 < cols ∧ 3 ≤ rows ∧ 0 < damp ∧ damp < 1

instance (cols rows : ℕ) (damp : ℚ) : Decidable (validConfigSpec cols rows damp) := by
  unfold validConfigSpec
  infer_instance

/-- A grid whose current buffer holds `8` at cell `(0, 1)` and whose
previous buffer is zero. -/
def c3GridA : Grid :=
  { current := fun i j => if i = 0 ∧ j = 1 then 8 else 0,
    previous := fun _ _ => 0 }

/-- A grid whose previous buffer holds `8` at cell `(0, 1)` and whose
current buffer is zero. -/
def c3GridB : Grid :=
  { current := fun _ _ => 0,
    previous := fun i j => if i = 0 ∧ j = 1 then 8 else 0 }

/-! ### General lemmas about the embedding -/

theorem jsRem_of_nonneg {a : ℤ} (b : ℤ) (h : 0 ≤ a) : jsRem a b = a % b := by
  unfold jsRem
  rw [if_neg (not_lt.mpr h)]

theorem wrapColOnce_eq (cols : ℕ) (t : ℤ) :
    wrapColOnce cols t =
      if (cols : ℤ) ≤ (if t < 0 then t + (cols : ℤ) else t) then
        (if t < 0 then t + (cols : ℤ) else t) - (cols : ℤ)
      else (if t < 0 then t + (cols : ℤ) else t) := rfl

theorem applyWrites_current (ws : List ((ℤ × ℤ) × ℚ)) :
    ∀ g : Grid, (applyWrites g ws).current = g.current := by
  induction ws with
  | nil => intro g; rfl
  | cons w ws ih => intro g; exact ih (setPrev g w.1.1 w.1.2 w.2)

theorem lastVal_cons_none (w : (ℤ × ℤ) × ℚ) (rest : List ((ℤ × ℤ) × ℚ))
    (q : ℤ × ℤ) (h : lastVal rest q = none) :
    lastVal (w :: rest) q = if w.1 = q then some w.2 else none := by
  simp only [lastVal, h]

theorem applyWrites_previous (ws : List ((ℤ × ℤ) × ℚ)) :
    ∀ (g : Grid) (a b : ℤ), (applyWrites g ws).previous a b =
      (lastVal ws (a, b)).getD (g.previous a b) := by
  induction ws with
  | nil => intro g a b; rfl
  | cons w rest ih =>
    intro g a b
    have hstep : (applyWrites g (w :: rest)).previous a b =
        (applyWrites (setPrev g w.1.1 w.1.2 w.2) rest).previous a b := rfl
    rw [hstep, ih]
    cases hlv : lastVal rest (a, b) with
    | some v => simp [lastVal, hlv]
    | none =>
      simp only [lastVal, hlv, Option.getD_none]
      by_cases hw : w.1 = (a, b)
      · rw [if_pos hw, Option.getD_some]
        have h1 : w.1.1 = a := by rw [hw]
        have h2 : w.1.2 = b := by rw [hw]
        unfold setPrev
        simp only
        rw [if_pos ⟨h1.symm, h2.symm⟩]
      · rw [if_neg hw, Option.getD_none]
        unfold setPrev
        simp only
        rw [if_neg]
        intro hc
        exact hw (by rw [hc.1, hc.2])

theorem lastVal_none_of_forall_ne (q : ℤ × ℤ) :
    ∀ ws : List ((ℤ × ℤ) × ℚ), (∀ w ∈ ws, w.1 ≠ q) → lastVal ws q = none := by
  intro ws
  induction ws with
  | nil => intro _; rfl
  | cons w rest ih =>
    intro h
    have hr : lastVal rest q = none :=
      ih (fun w' hw' => h w' (List.mem_cons_of_mem _ hw'))
    simp only [lastVal, hr]
    rw [if_neg (h w (List.mem_cons_self _ _))]

theorem lastVal_mem (q : ℤ × ℤ) :
    ∀ (ws : List ((ℤ × ℤ) × ℚ)) (v : ℚ), lastVal ws q = some v →
      ∃ w ∈ ws, w.1 = q ∧ w.2 = v := by
  intro ws
  induction ws with
  | nil => intro v h; exact absurd h (by simp [lastVal])
  | cons w rest ih =>
    intro v h
    simp only [lastVal] at h
    cases hlv : lastVal rest q with
    | some u =>
      rw [hlv] at h
      obtain ⟨w', hw', hq, hv⟩ := ih u hlv
      exact ⟨w', List.mem_cons_of_mem _ hw', hq,
        by simpa using (hv.trans (by injection h))⟩
    | none =>
      rw [hlv] at h
      by_cases hw : w.1 = q
      · rw [if_pos hw] at h
        exact ⟨w, List.mem_cons_self _ _, hw, by injection h⟩
      · rw [if_neg hw] at h
        exact absurd h (by simp)

theorem lastVal_isSome_of_exists (q : ℤ × ℤ) :
    ∀ ws : List ((ℤ × ℤ) × ℚ), (∃ w ∈ ws, w.1 = q) →
      ∃ v, lastVal ws q = some v := by
  intro ws
  induction ws with
  | nil => rintro ⟨w, hw, _⟩; exact absurd hw (List.not_mem_nil w)
  | cons w rest ih =>
    rintro ⟨w', hw', hq⟩
    cases hlv : lastVal rest q with
    | some v => exact ⟨v, by simp [lastVal, hlv]⟩
    | none =>
      rcases List.mem_cons.mp hw' with rfl | hmem
      · exact ⟨w'.2, by simp [lastVal, hlv, if_pos hq]⟩
      · obtain ⟨v, hv⟩ := ih ⟨w', hmem, hq⟩
        rw [hlv] at hv
        exact absurd hv (by simp)

theorem lastVal_some_of_all_values (q : ℤ × ℤ) (v : ℚ)
    (ws : List ((ℤ × ℤ) × ℚ)) (hall : ∀ w ∈ ws, w.1 = q → w.2 = v)
    (hex : ∃ w ∈ ws, w.1 = q) : lastVal ws q = some v := by
  obtain ⟨u, hu⟩ := lastVal_isSome_of_exists q ws hex
  obtain ⟨w, hw, hq, hv⟩ := lastVal_mem q ws u hu
  rw [hu]
  exact congrArg some (hv.symm.trans (hall w hw hq))

theorem emod_onceNeg (m t : ℤ) (h0 : -m ≤ t) (h1 : t < 0) : t % m = t + m := by
  have he : (t + m) % m = t % m := by
    rw [show t + m = t + m * 1 by ring, Int.add_mul_emod_self_left]
  rw [← he, Int.emod_eq_of_lt (by omega) (by omega)]

theorem emod_shift_ne (cols : ℕ) (a d1 : ℤ) (hcols : 3 ≤ cols)
    (ha0 : 0 ≤ a) (ha : a < (cols : ℤ)) (hd : d1 = -1 ∨ d1 = 1) :
    (a + d1) % (cols : ℤ) ≠ a := by
  rcases hd with rfl | rfl
  · by_cases h0 : a = 0
    · subst h0
      rw [emod_onceNeg _ _ (by omega) (by omega)]
      omega
    · rw [Int.emod_eq_of_lt (by omega) (by omega)]
      omega
  · by_cases h : a + 1 < (cols : ℤ)
    · rw [Int.emod_eq_of_lt (by omega) h]
      omega
    · have he : a + 1 = (cols : ℤ) := by omega
      rw [he, Int.emod_self]
      omega

theorem mem_neighborOffsets_iff (d : ℤ × ℤ) :
    d ∈ neighborOffsets ↔
      d.1.natAbs ≤ 1 ∧ d.2.natAbs ≤ 1 ∧ ¬(d.1 = 0 ∧ d.2 = 0) := by
  rcases d with ⟨d1, d2⟩
  simp only [neighborOffsets, List.mem_cons, List.not_mem_nil, or_false,
    Prod.mk.injEq]
  omega

theorem nbrTarget_eval (cols rows : ℕ) (c d : ℤ × ℤ) (hcols : 1 ≤ cols)
    (hc1 : 0 ≤ c.1) (hd1 : -1 ≤ d.1)
    (hrow1 : 1 ≤ c.2 + d.2) (hrow2 : c.2 + d.2 ≤ (rows : ℤ) - 2) :
    nbrTarget cols rows c d = ((c.1 + d.1) % (cols : ℤ), c.2 + d.2) := by
  unfold nbrTarget
  rw [jsRem_of_nonneg _ (by omega)]
  rw [show c.1 + d.1 + (cols : ℤ) = c.1 + d.1 + (cols : ℤ) * 1 by ring,
    Int.add_mul_emod_self_left]
  unfold clampRow
  rw [Prod.mk.injEq]
  constructor
  · rfl
  · omega

theorem clampRow_bounds (rows : ℕ) (j : ℤ) (hrows : 3 ≤ rows) :
    1 ≤ clampRow rows j ∧ clampRow rows j ≤ (rows : ℤ) - 2 := by
  unfold clampRow
  omega

theorem pathCell_row_bounds (cols rows : ℕ) (c0 p0 c1 p1 : ℤ) (s : ℕ)
    (hrows : 3 ≤ rows) :
    1 ≤ (pathCell cols rows c0 p0 c1 p1 s).2 ∧
      (pathCell cols rows c0 p0 c1 p1 s).2 ≤ (rows : ℤ) - 2 :=
  clampRow_bounds rows _ hrows

theorem stampWrites_row_bounds (cols rows : ℕ) (a f : ℚ) (c : ℤ × ℤ)
    (hrows : 3 ≤ rows) (hc : 1 ≤ c.2 ∧ c.2 ≤ (rows : ℤ) - 2) :
    ∀ w ∈ stampWrites cols rows a f c, 1 ≤ w.1.2 ∧ w.1.2 ≤ (rows : ℤ) - 2 := by
  intro w hw
  simp only [stampWrites, List.mem_cons, List.mem_map] at hw
  rcases hw with rfl | ⟨d, _, rfl⟩
  · exact hc
  · exact clampRow_bounds rows _ hrows

theorem applyWrites_previous_of_row_ne (ws : List ((ℤ × ℤ) × ℚ)) :
    ∀ (g : Grid) (a b : ℤ), (∀ w ∈ ws, w.1.2 ≠ b) →
      (applyWrites g ws).previous a b = g.previous a b := by
  induction ws with
  | nil => intro g a b _; rfl
  | cons w rest ih =>
    intro g a b hne
    have h1 : (applyWrites g (w :: rest)).previous a b =
        (applyWrites (setPrev g w.1.1 w.1.2 w.2) rest).previous a b := rfl
    rw [h1, ih _ a b (fun w' hw' => hne w' (List.mem_cons_of_mem _ hw'))]
    unfold setPrev
    simp only
    rw [if_neg]
    intro hc
    exact hne w (List.mem_cons_self _ _) hc.2.symm

theorem addImpulse_current_eq (cols rows : ℕ) (x y : ℚ) (ft : Bool) (st : SimState) :
    (addHeightfieldImpulse cols rows x y ft st).grid.current = st.grid.current := by
  cases ft with
  | false =>
    simp only [addHeightfieldImpulse, if_neg (Bool.false_ne_true), injectPath]
    exact applyWrites_current _ _
  | true =>
    simp only [addHeightfieldImpulse, if_pos rfl, injectPoint]
    exact applyWrites_current _ _

theorem addImpulse_previous_boundary (cols rows : ℕ) (x y : ℚ) (ft : Bool)
    (st : SimState) (hrows : 3 ≤ rows) (a b : ℤ)
    (hb : b = 0 ∨ b = (rows : ℤ) - 1) :
    (addHeightfieldImpulse cols rows x y ft st).grid.previous a b =
      st.grid.previous a b := by
  cases ft with
  | true =>
    simp only [addHeightfieldImpulse, if_pos rfl, injectPoint]
    apply applyWrites_previous_of_row_ne
    intro w hw
    have hc : 1 ≤ (angleColIndex cols x, angleRowIndexImpulse rows y).2 ∧
        (angleColIndex cols x, angleRowIndexImpulse rows y).2 ≤ (rows : ℤ) - 2 :=
      clampRow_bounds rows _ hrows
    have := stampWrites_row_bounds cols rows _ _ _ hrows hc w hw
    omega
  | false =>
    simp only [addHeightfieldImpulse, if_neg (Bool.false_ne_true), injectPath]
    apply applyWrites_previous_of_row_ne
    intro w hw
    rw [List.mem_flatMap] at hw
    obtain ⟨c, hcmem, hw⟩ := hw
    have hcrow : 1 ≤ c.2 ∧ c.2 ≤ (rows : ℤ) - 2 := by
      unfold pathCells at hcmem
      rw [List.mem_map] at hcmem
      obtain ⟨s, _, rfl⟩ := hcmem
      exact pathCell_row_bounds cols rows _ _ _ _ s hrows
    have := stampWrites_row_bounds cols rows _ _ _ hrows hcrow w hw
    omega

theorem tick_boundary (cols rows : ℕ) (damp : ℚ) (g : Grid)
    (h : boundaryZero rows g) :
    boundaryZero rows (updateHeightfield cols rows damp g) := by
  intro i
  refine ⟨?_, ?_, (h i).1, (h i).2.1⟩
  · show newHeightfield cols rows damp g i 0 = 0
    unfold newHeightfield
    rw [if_neg (by omega)]
  · show newHeightfield cols rows damp g i ((rows : ℤ) - 1) = 0
    unfold newHeightfield
    rw [if_neg (by omega)]

/-! ### C1 -/

/-- C1: for every grid state and every interior cell
(`col ∈ [0, cols)`, `row ∈ [1, rows-2]`), one `updateHeightfield` call
sets the new current value at `(col, row)` to
`damping * (S/8 - current[col][row])`, where `S` sums the eight
previous-buffer neighbours, the columns `col ± 1` taken modulo `cols` and
the rows `row ± 1` taken directly. -/
theorem C1_interior_step_formula (cols rows : ℕ) (damp : ℚ) (g : Grid)
    (i j : ℤ) (hi0 : 0 ≤ i) (hi : i < (cols : ℤ))
    (hj1 : 1 ≤ j) (hj : j ≤ (rows : ℤ) - 2) :
    (updateHeightfield cols rows damp g).current i j =
      damp *
        ((g.previous ((i - 1) % (cols : ℤ)) j +
          g.previous ((i + 1) % (cols : ℤ)) j +
          g.previous i (j - 1) + g.previous i (j + 1) +
          g.previous ((i - 1) % (cols : ℤ)) (j - 1) +
          g.previous ((i - 1) % (cols : ℤ)) (j + 1) +
          g.previous ((i + 1) % (cols : ℤ)) (j - 1) +
          g.previous ((i + 1) % (cols : ℤ)) (j + 1)) / 8 -
          g.current i j) := by
  have hcond : 0 ≤ i ∧ i < (cols : ℤ) ∧ 1 ≤ j ∧ j < (rows : ℤ) - 1 :=
    ⟨hi0, hi, hj1, by omega⟩
  have h1 : jsRem (i - 1 + (cols : ℤ)) (cols : ℤ) = (i - 1) % (cols : ℤ) := by
    rw [jsRem_of_nonneg _ (by omega)]
    conv_lhs => rw [show i - 1 + (cols : ℤ) = i - 1 + (cols : ℤ) * 1 by ring]
    rw [Int.add_mul_emod_self_left]
  have h2 : jsRem (i + 1) (cols : ℤ) = (i + 1) % (cols : ℤ) :=
    jsRem_of_nonneg _ (by omega)
  show newHeightfield cols rows damp g i j = _
  simp only [newHeightfield, if_pos hcond, h1, h2]
  ring

/-- Witness for C1 at a concrete interior cell. -/
theorem C1_interior_step_formula_witness :
    (0 ≤ (1 : ℤ) ∧ (1 : ℤ) < ((3 : ℕ) : ℤ) ∧ 1 ≤ (1 : ℤ) ∧
      (1 : ℤ) ≤ ((3 : ℕ) : ℤ) - 2) ∧
    (updateHeightfield 3 3 (1 / 2) c3GridB).current 1 1 =
      (1 / 2 : ℚ) *
        ((c3GridB.previous ((1 - 1) % ((3 : ℕ) : ℤ)) 1 +
          c3GridB.previous ((1 + 1) % ((3 : ℕ) : ℤ)) 1 +
          c3GridB.previous 1 (1 - 1) + c3GridB.previous 1 (1 + 1) +
          c3GridB.previous ((1 - 1) % ((3 : ℕ) : ℤ)) (1 - 1) +
          c3GridB.previous ((1 - 1) % ((3 : ℕ) : ℤ)) (1 + 1) +
          c3GridB.previous ((1 + 1) % ((3 : ℕ) : ℤ)) (1 - 1) +
          c3GridB.previous ((1 + 1) % ((3 : ℕ) : ℤ)) (1 + 1)) / 8 -
          c3GridB.current 1 1) :=
  ⟨by decide,
    C1_interior_step_formula 3 3 (1 / 2) c3GridB 1 1 (by decide) (by decide)
      (by decide) (by decide)⟩

/-! ### C2 -/

/-- C2: starting from the all-zero grid, after any finite sequence of
simulation steps and impulse injections, every cell of row `0` and of row
`rows - 1` of both the current and the previous buffer equals `0`
(for any configuration with at least three rows). -/
theorem C2_boundary_invariant (cols rows : ℕ) (damp : ℚ) (hrows : 3 ≤ rows)
    (ops : List SimOp) :
    boundaryZero rows (runSim cols rows damp ops initialState).grid := by
  have main : ∀ (l : List SimOp) (st : SimState), boundaryZero rows st.grid →
      boundaryZero rows (runSim cols rows damp l st).grid := by
    intro l
    induction l with
    | nil => intro st h; exact h
    | cons op rest ih =>
      intro st h
      refine ih _ ?_
      cases op with
      | tick => exact tick_boundary cols rows damp st.grid h
      | impulse x y ft =>
        show boundaryZero rows (addHeightfieldImpulse cols rows x y ft st).grid
        intro i
        refine ⟨?_, ?_, ?_, ?_⟩
        · rw [addImpulse_current_eq]; exact (h i).1
        · rw [addImpulse_current_eq]; exact (h i).2.1
        · rw [addImpulse_previous_boundary cols rows x y ft st hrows i 0 (Or.inl rfl)]
          exact (h i).2.2.1
        · rw [addImpulse_previous_boundary cols rows x y ft st hrows i _ (Or.inr rfl)]
          exact (h i).2.2.2
  exact main ops initialState (fun i => ⟨rfl, rfl, rfl, rfl⟩)

/-- Witness for C2 with the program's configuration and one tick. -/
theorem C2_boundary_invariant_witness :
    3 ≤ 128 ∧
    boundaryZero 128 (runSim 256 128 damping [SimOp.tick] initialState).grid :=
  ⟨by norm_num, C2_boundary_invariant 256 128 damping (by norm_num) [SimOp.tick]⟩

/-! ### C3 -/

/-- C3 (amended): the unconditional decay claim fails (see the
counterexample); what holds is decay from a quiescent previous buffer:
if the previous buffer is all zero (no injection pending) and
`0 ≤ damping < 1`, then across one step the squared energy of the current
buffer does not increase, and it strictly decreases whenever any current
cell in the allocated range is non-zero. -/
theorem C3_amended_decay_from_quiescent (cols rows : ℕ) (damp : ℚ) (g : Grid)
    (hprev : ∀ i j : ℤ, g.previous i j = 0) (hd0 : 0 ≤ damp) (hd1 : damp < 1) :
    bufferEnergy cols rows (updateHeightfield cols rows damp g).current ≤
      bufferEnergy cols rows g.current ∧
    ((∃ i j : ℕ, i < cols ∧ j < rows ∧ g.current (i : ℤ) (j : ℤ) ≠ 0) →
      bufferEnergy cols rows (updateHeightfield cols rows damp g).current <
        bufferEnergy cols rows g.current) := by
  have key : ∀ i j : ℤ, (newHeightfield cols rows damp g i j) ^ 2 ≤
      damp ^ 2 * (g.current i j) ^ 2 := by
    intro i j
    unfold newHeightfield
    split
    · simp only [hprev]
      have e : ((0 + 0 + 0 + 0 + 0 + 0 + 0 + (0 : ℚ)) / 8 - g.current i j) * damp =
          -(g.current i j) * damp := by ring
      rw [e]
      have e2 : (-(g.current i j) * damp) ^ 2 = damp ^ 2 * (g.current i j) ^ 2 := by
        ring
      rw [e2]
    · have h1 : (0 : ℚ) ^ 2 ≤ damp ^ 2 * (g.current i j) ^ 2 := by positivity
      simpa using h1
  have hE0 : 0 ≤ bufferEnergy cols rows g.current := by
    apply Finset.sum_nonneg
    intro i _
    apply Finset.sum_nonneg
    intro j _
    positivity
  have hsum : bufferEnergy cols rows (updateHeightfield cols rows damp g).current ≤
      damp ^ 2 * bufferEnergy cols rows g.current := by
    have expand : damp ^ 2 * bufferEnergy cols rows g.current =
        ∑ i in Finset.range cols, ∑ j in Finset.range rows,
          damp ^ 2 * (g.current (i : ℤ) (j : ℤ)) ^ 2 := by
      unfold bufferEnergy
      rw [Finset.mul_sum]
      congr 1
      funext i
      rw [Finset.mul_sum]
    rw [expand]
    apply Finset.sum_le_sum
    intro i _
    apply Finset.sum_le_sum
    intro j _
    exact key (i : ℤ) (j : ℤ)
  have hd2 : damp ^ 2 ≤ 1 := by nlinarith
  constructor
  · calc bufferEnergy cols rows (updateHeightfield cols rows damp g).current ≤
        damp ^ 2 * bufferEnergy cols rows g.current := hsum
      _ ≤ 1 * bufferEnergy cols rows g.current :=
        mul_le_mul_of_nonneg_right hd2 hE0
      _ = bufferEnergy cols rows g.current := one_mul _
  · rintro ⟨i, j, hi, hj, hne⟩
    have hpos : 0 < bufferEnergy cols rows g.current := by
      apply Finset.sum_pos'
      · intro a _
        apply Finset.sum_nonneg
        intro b _
        positivity
      · refine ⟨i, Finset.mem_range.mpr hi, ?_⟩
        apply Finset.sum_pos'
        · intro b _
          positivity
        · exact ⟨j, Finset.mem_range.mpr hj, by positivity⟩
    have hd2lt : damp ^ 2 < 1 := by nlinarith
    calc bufferEnergy cols rows (updateHeightfield cols rows damp g).current ≤
        damp ^ 2 * bufferEnergy cols rows g.current := hsum
      _ < 1 * bufferEnergy cols rows g.current :=
        mul_lt_mul_of_pos_right hd2lt hpos
      _ = bufferEnergy cols rows g.current := one_mul _

/-- Witness for the amended C3 on the concrete grid `c3GridA`. -/
theorem C3_amended_decay_from_quiescent_witness :
    ((∀ i j : ℤ, c3GridA.previous i j = 0) ∧ (0 : ℚ) ≤ 1 / 2 ∧ (1 / 2 : ℚ) < 1) ∧
    (bufferEnergy 3 3 (updateHeightfield 3 3 (1 / 2) c3GridA).current ≤
        bufferEnergy 3 3 c3GridA.current ∧
      ((∃ i j : ℕ, i < 3 ∧ j < 3 ∧ c3GridA.current (i : ℤ) (j : ℤ) ≠ 0) →
        bufferEnergy 3 3 (updateHeightfield 3 3 (1 / 2) c3GridA).current <
          bufferEnergy 3 3 c3GridA.current)) :=
  ⟨⟨fun _ _ => rfl, by norm_num, by norm_num⟩,
    C3_amended_decay_from_quiescent 3 3 (1 / 2) c3GridA (fun _ _ => rfl)
      (by norm_num) (by norm_num)⟩

/-! ### C5 -/

/-- C5: injection writes only into the previous buffer (the current
buffer is untouched), and a step makes the old current buffer the new
previous buffer (a buffer-role rotation); hence after a step that follows
an injection, the previous buffer equals the pre-injection current buffer,
while the injected values were the `previous` data the step's formula
read. -/
theorem C5_injection_previous_step_rotation (cols rows : ℕ) (damp : ℚ)
    (x y : ℚ) (ft : Bool) (st : SimState) (g : Grid) :
    (updateHeightfield cols rows damp g).previous = g.current ∧
    (addHeightfieldImpulse cols rows x y ft st).grid.current =
      st.grid.current ∧
    (updateHeightfield cols rows damp
        (addHeightfieldImpulse cols rows x y ft st).grid).previous =
      st.grid.current := by
  have hinj := addImpulse_current_eq cols rows x y ft st
  exact ⟨rfl, hinj, hinj⟩

/-! ### C9 -/

/-- C9: determinism — two runs from identical states through the identical
ordered sequence of injections and ticks, with the same configuration,
produce identical states. -/
theorem C9_determinism (cols rows : ℕ) (damp : ℚ) (ops : List SimOp)
    (s t : SimState) (h : s = t) :
    runSim cols rows damp ops s = runSim cols rows damp ops t := by
  rw [h]

/-- Witness for C9 on a concrete run. -/
theorem C9_determinism_witness :
    initialState = initialState ∧
    runSim 256 128 damping [SimOp.tick] initialState =
      runSim 256 128 damping [SimOp.tick] initialState :=
  ⟨rfl, C9_determinism 256 128 damping [SimOp.tick] initialState initialState rfl⟩

/-! ### C6 -/

/-- Counterexample to C6: with the invalid configuration `rows = 2`
(`rows < 3`), initialization does not fail or report anything: it
produces the ordinary all-zero grid, and the simulation step runs on it
exactly as in any other configuration.  The source `setup()` contains no
validation. -/
theorem C6_counterexample :
    ¬ validConfigSpec 256 2 damping ∧
    (setupHeightfield 256 2).current 0 0 = 0 ∧
    (setupHeightfield 256 2).previous 0 0 = 0 ∧
    (updateHeightfield 256 2 damping (setupHeightfield 256 2)).previous =
      (setupHeightfield 256 2).current :=
  ⟨by decide, rfl, rfl, rfl⟩

/-- C6 (amended): initialization performs no validation and cannot fail;
however the configuration is hardcoded to `cols = 256`, `rows = 128`,
`damping = 0.985`, which satisfies the spec's validity conditions, so the
simulation never runs in an invalid configuration. -/
theorem C6_amended_config_valid :
    validConfigSpec heightfieldCols heightfieldRows damping := by
  unfold validConfigSpec heightfieldCols heightfieldRows damping
  norm_num

/-- Counterexample to C3: with `damping = 1/2 < 1`, no injection, and a
non-zero cell, one step strictly increases the total squared grid energy
(over both buffers) from `64` to `80` on `c3GridA`; and even the squared
energy of the current buffer alone strictly increases (from `0` to `1/2`)
on `c3GridB`. -/
theorem C3_counterexample :
    (1 : ℚ) / 2 < 1 ∧ c3GridA.current 0 1 ≠ 0 ∧
    gridEnergy 3 3 c3GridA <
      gridEnergy 3 3 (updateHeightfield 3 3 (1 / 2) c3GridA) ∧
    c3GridB.previous 0 1 ≠ 0 ∧
    bufferEnergy 3 3 c3GridB.current <
      bufferEnergy 3 3 (updateHeightfield 3 3 (1 / 2) c3GridB).current := by
  norm_num [gridEnergy, bufferEnergy, Finset.sum_range_succ, c3GridA, c3GridB,
    updateHeightfield, newHeightfield, jsRem]

/-! ### Counterexample for C4 -/

/-- Counterexample to C4: at target row `1` (which lies in `[1, rows-2]`
for `rows = 5`), the neighbour loop's row clamp maps the `(0, -1)` offset
back onto the center, so after `injectPoint` with `strength = 8` the
center holds `8 * 0.7 = 28/5`, not `8`. -/
theorem C4_counterexample :
    ((1 : ℤ) ≤ 1 ∧ (1 : ℤ) ≤ (5 : ℤ) - 2) ∧
    (injectPoint 5 5 8 2 1 (setupHeightfield 5 5)).previous 2 1 = 28 / 5 ∧
    (28 / 5 : ℚ) ≠ 8 := by
  norm_num [injectPoint, applyWrites, stampWrites, neighborOffsets, nbrTarget,
    setPrev, setupHeightfield, jsRem, clampRow, List.foldl, List.map]

/-- C4 (amended): for target rows away from the clamp boundary
(`row ∈ [2, rows-3]`, with `cols ≥ 3`), a point injection sets
`previous[col][row] = strength`, sets each of the eight neighbours
(column wrapped modulo `cols`, rows taken directly) to `strength * 0.7`,
and leaves every other cell and the whole current buffer unchanged.  At
rows `1` and `rows-2` the row clamp folds a neighbour write back onto
the center, which then holds `strength * 0.7` instead (see the
counterexample). -/
theorem C4_amended_point_injection (cols rows : ℕ) (strength : ℚ)
    (ti pj : ℤ) (g : Grid) (hcols : 3 ≤ cols) (hti0 : 0 ≤ ti)
    (hti : ti < (cols : ℤ)) (hpj2 : 2 ≤ pj) (hpj : pj ≤ (rows : ℤ) - 3) :
    (injectPoint cols rows strength ti pj g).current = g.current ∧
    (injectPoint cols rows strength ti pj g).previous ti pj = strength ∧
    (∀ di dj : ℤ, di.natAbs ≤ 1 → dj.natAbs ≤ 1 → ¬(di = 0 ∧ dj = 0) →
      (injectPoint cols rows strength ti pj g).previous
        ((ti + di) % (cols : ℤ)) (pj + dj) = strength * (7 / 10)) ∧
    (∀ a b : ℤ,
      (∀ di dj : ℤ, di.natAbs ≤ 1 → dj.natAbs ≤ 1 →
        ¬(a = (ti + di) % (cols : ℤ) ∧ b = pj + dj)) →
      (injectPoint cols rows strength ti pj g).previous a b =
        g.previous a b) := by
  have hread : ∀ a b : ℤ, (injectPoint cols rows strength ti pj g).previous a b =
      (lastVal (stampWrites cols rows strength (strength * (7 / 10)) (ti, pj))
        (a, b)).getD (g.previous a b) := by
    intro a b
    exact applyWrites_previous _ g a b
  have htgt : ∀ d ∈ neighborOffsets,
      nbrTarget cols rows (ti, pj) d = ((ti + d.1) % (cols : ℤ), pj + d.2) := by
    intro d hd
    rw [mem_neighborOffsets_iff] at hd
    exact nbrTarget_eval cols rows (ti, pj) d (by omega) hti0 (by omega)
      (by simp only; omega) (by simp only; omega)
  refine ⟨applyWrites_current _ g, ?_, ?_, ?_⟩
  · rw [hread]
    have hnone : lastVal (neighborOffsets.map
        (fun d => (nbrTarget cols rows (ti, pj) d, strength * (7 / 10))))
        (ti, pj) = none := by
      apply lastVal_none_of_forall_ne
      intro w hw
      rw [List.mem_map] at hw
      obtain ⟨d, hd, rfl⟩ := hw
      simp only
      rw [htgt d hd]
      have hd' := (mem_neighborOffsets_iff d).mp hd
      intro hc
      rw [Prod.mk.injEq] at hc
      have hdj : d.2 = 0 := by omega
      have hdi : d.1 = -1 ∨ d.1 = 1 := by
        rcases hd' with ⟨h1, h2, h3⟩
        omega
      exact emod_shift_ne cols ti d.1 hcols hti0 hti hdi hc.1
    have hcons : lastVal (stampWrites cols rows strength (strength * (7 / 10))
        (ti, pj)) (ti, pj) =
        if (((ti, pj) : ℤ × ℤ)) = (ti, pj) then some strength else none :=
      lastVal_cons_none _ _ _ hnone
    rw [hcons, if_pos rfl, Option.getD_some]
  · intro di dj hdi hdj hne
    rw [hread]
    have hmem : ((di, dj) : ℤ × ℤ) ∈ neighborOffsets := by
      rw [mem_neighborOffsets_iff]
      exact ⟨hdi, hdj, hne⟩
    have hsome : lastVal (stampWrites cols rows strength (strength * (7 / 10))
        (ti, pj)) (((ti + di) % (cols : ℤ), pj + dj)) =
        some (strength * (7 / 10)) := by
      apply lastVal_some_of_all_values
      · intro w hw hq
        simp only [stampWrites, List.mem_cons, List.mem_map] at hw
        rcases hw with rfl | ⟨d, hd, rfl⟩
        · exfalso
          simp only at hq
          rw [Prod.mk.injEq] at hq
          have hdj0 : dj = 0 := by omega
          have hdi' : di = -1 ∨ di = 1 := by omega
          exact emod_shift_ne cols ti di hcols hti0 hti hdi' hq.1.symm
        · rfl
      · refine ⟨(nbrTarget cols rows (ti, pj) (di, dj), strength * (7 / 10)),
          ?_, ?_⟩
        · simp only [stampWrites, List.mem_cons, List.mem_map]
          exact Or.inr ⟨(di, dj), hmem, rfl⟩
        · simp only
          rw [htgt _ hmem]
    rw [hsome, Option.getD_some]
  · intro a b hmiss
    rw [hread]
    have hnone : lastVal (stampWrites cols rows strength (strength * (7 / 10))
        (ti, pj)) (a, b) = none := by
      apply lastVal_none_of_forall_ne
      intro w hw
      simp only [stampWrites, List.mem_cons, List.mem_map] at hw
      rcases hw with rfl | ⟨d, hd, rfl⟩
      · simp only
        intro hc
        rw [Prod.mk.injEq] at hc
        have := hmiss 0 0 (by norm_num) (by norm_num)
        rw [Int.add_zero, Int.emod_eq_of_lt hti0 hti] at this
        exact this ⟨hc.1.symm, by omega⟩
      · simp only
        rw [htgt d hd]
        intro hc
        rw [Prod.mk.injEq] at hc
        have hd' := (mem_neighborOffsets_iff d).mp hd
        exact hmiss d.1 d.2 hd'.1 hd'.2.1 ⟨hc.1.symm, hc.2.symm⟩
    rw [hnone, Option.getD_none]

/-- Witness for the amended C4 at `(col, row) = (2, 3)` in a `5 × 7` grid. -/
theorem C4_amended_point_injection_witness :
    (3 ≤ 5 ∧ (0 : ℤ) ≤ 2 ∧ (2 : ℤ) < ((5 : ℕ) : ℤ) ∧ (2 : ℤ) ≤ 3 ∧
      (3 : ℤ) ≤ ((7 : ℕ) : ℤ) - 3) ∧
    ((injectPoint 5 7 8 2 3 (setupHeightfield 5 7)).current =
        (setupHeightfield 5 7).current ∧
      (injectPoint 5 7 8 2 3 (setupHeightfield 5 7)).previous 2 3 = 8 ∧
      (∀ di dj : ℤ, di.natAbs ≤ 1 → dj.natAbs ≤ 1 → ¬(di = 0 ∧ dj = 0) →
        (injectPoint 5 7 8 2 3 (setupHeightfield 5 7)).previous
          ((2 + di) % ((5 : ℕ) : ℤ)) (3 + dj) = 8 * (7 / 10)) ∧
      (∀ a b : ℤ,
        (∀ di dj : ℤ, di.natAbs ≤ 1 → dj.natAbs ≤ 1 →
          ¬(a = (2 + di) % ((5 : ℕ) : ℤ) ∧ b = 3 + dj)) →
        (injectPoint 5 7 8 2 3 (setupHeightfield 5 7)).previous a b =
          (setupHeightfield 5 7).previous a b)) :=
  ⟨⟨by norm_num, by norm_num, by norm_num, by norm_num, by norm_num⟩,
    C4_amended_point_injection 5 7 8 2 3 (setupHeightfield 5 7) (by norm_num)
      (by norm_num) (by norm_num) (by norm_num) (by norm_num)⟩

/-! ### Counterexample for C7 -/

/-- Counterexample to C7: for `theta = -4π` (normalised `x = -2`) the
single-conditional wrap adds `cols` only once, yielding `-256`, which is
neither `floor(x * cols) mod cols = 0` nor inside `[0, cols)`. -/
theorem C7_counterexample :
    angleColIndex 256 (-2) = -256 ∧
    ⌊(-2 : ℚ) * ((256 : ℕ) : ℚ)⌋ % ((256 : ℕ) : ℤ) = 0 ∧
    angleColIndex 256 (-2) ≠ ⌊(-2 : ℚ) * ((256 : ℕ) : ℚ)⌋ % ((256 : ℕ) : ℤ) ∧
    ¬ 0 ≤ angleColIndex 256 (-2) := by
  norm_num [angleColIndex, wrapColOnce]

/-- C7 (amended): when the raw index `floor(theta/2π * cols)` lies within
one wrap of range (in `[-cols, 2*cols)`, as it always does for the
`atan2`-produced angles of the program), the single-conditional wrap
agrees with `floor(theta/2π * cols) mod cols` and lands in `[0, cols)`;
and the impulse-write variant clamps `floor(phi/π * rows)` into
`[1, rows-2]`.  Outside that raw-index range the wrap differs from the
claimed modulo (see the counterexample). -/
theorem C7_amended_wrap_and_clamp (cols rows : ℕ) (x y : ℚ)
    (hlo : -(cols : ℤ) ≤ ⌊x * (cols : ℚ)⌋)
    (hhi : ⌊x * (cols : ℚ)⌋ < 2 * (cols : ℤ))
    (hrows : 3 ≤ rows) :
    angleColIndex cols x = ⌊x * (cols : ℚ)⌋ % (cols : ℤ) ∧
    0 ≤ angleColIndex cols x ∧ angleColIndex cols x < (cols : ℤ) ∧
    angleRowIndexImpulse rows y = max (min ⌊y * (rows : ℚ)⌋ ((rows : ℤ) - 2)) 1 ∧
    1 ≤ angleRowIndexImpulse rows y ∧
    angleRowIndexImpulse rows y ≤ (rows : ℤ) - 2 := by
  have hc : 0 < (cols : ℤ) := by omega
  set t := ⌊x * (cols : ℚ)⌋ with ht
  have hcol : angleColIndex cols x = t % (cols : ℤ) ∧ 0 ≤ angleColIndex cols x ∧
      angleColIndex cols x < (cols : ℤ) := by
    unfold angleColIndex
    rw [← ht, wrapColOnce_eq]
    have e1 : (t + (cols : ℤ)) % (cols : ℤ) = t % (cols : ℤ) := by
      rw [show t + (cols : ℤ) = t + (cols : ℤ) * 1 by ring, Int.add_mul_emod_self_left]
    have e2 : (t - (cols : ℤ)) % (cols : ℤ) = t % (cols : ℤ) := by
      rw [show t - (cols : ℤ) = t + (cols : ℤ) * (-1) by ring, Int.add_mul_emod_self_left]
    split_ifs with h1 h2 h2
    · rw [show t + (cols : ℤ) - (cols : ℤ) = t by ring]
      rw [Int.emod_eq_of_lt (by omega) (by omega)] at e1
      omega
    · rw [← e1, Int.emod_eq_of_lt (by omega) (by omega)]
      omega
    · rw [← e2, Int.emod_eq_of_lt (by omega) (by omega)]
      omega
    · rw [Int.emod_eq_of_lt (by omega) (by omega)]
      omega
  refine ⟨hcol.1, hcol.2.1, hcol.2.2, rfl, ?_, ?_⟩
  · unfold angleRowIndexImpulse clampRow
    omega
  · unfold angleRowIndexImpulse clampRow
    omega

/-- Witness for the amended C7 at `x = -1/4` (that is, `theta = -π/2`). -/
theorem C7_amended_wrap_and_clamp_witness :
    (-((256 : ℕ) : ℤ) ≤ ⌊(-1 / 4 : ℚ) * ((256 : ℕ) : ℚ)⌋ ∧
      ⌊(-1 / 4 : ℚ) * ((256 : ℕ) : ℚ)⌋ < 2 * ((256 : ℕ) : ℤ) ∧
      3 ≤ 128) ∧
    (angleColIndex 256 (-1 / 4) = ⌊(-1 / 4 : ℚ) * ((256 : ℕ) : ℚ)⌋ % ((256 : ℕ) : ℤ) ∧
      0 ≤ angleColIndex 256 (-1 / 4) ∧
      angleColIndex 256 (-1 / 4) < ((256 : ℕ) : ℤ) ∧
      angleRowIndexImpulse 128 3 =
        max (min ⌊(3 : ℚ) * ((128 : ℕ) : ℚ)⌋ (((128 : ℕ) : ℤ) - 2)) 1 ∧
      1 ≤ angleRowIndexImpulse 128 3 ∧
      angleRowIndexImpulse 128 3 ≤ ((128 : ℕ) : ℤ) - 2) :=
  ⟨⟨by norm_num, by norm_num, by norm_num⟩,
    C7_amended_wrap_and_clamp 256 128 (-1 / 4) 3 (by norm_num) (by norm_num)
      (by norm_num)⟩

end Tangible
